import Mathlib

/-
Verification of the Geo-YOLO toolkit coordinate and raster pipeline.

The Python sources are shallowly embedded over exact rationals (ℚ): the
floating-point arithmetic of the scripts is modelled exactly, so the
"within floating-point tolerance" clauses of the design become exact
equalities.  Operations of external libraries that the scripts call
(the affine inverse of the `affine` package, `numpy.percentile`,
`rasterio.mask.mask` with `crop=True`) are embedded following their
documented semantics.  A floating-point value that is not a finite
number (the NaN produced by a 0/0 division in `numpy`) is modelled as
`Option.none`.
-/

namespace GeoYolo

/-- The six-coefficient affine transform of a raster, as in the `affine`
package used by `rasterio`: pixel `(col, row)` maps to geographic
`(a*col + b*row + c, d*col + e*row + f)`. -/
structure Affine where
  a : ℚ
  b : ℚ
  c : ℚ
  d : ℚ
  e : ℚ
  f : ℚ
  deriving DecidableEq

/-- Forward map, pixel space to geographic space (`transform * (col, row)`). -/
def Affine.fwd (t : Affine) (p : ℚ × ℚ) : ℚ × ℚ :=
  (t.a * p.1 + t.b * p.2 + t.c, t.d * p.1 + t.e * p.2 + t.f)

/-- Determinant of the linear part of the transform. -/
def Affine.det (t : Affine) : ℚ :=
  t.a * t.e - t.b * t.d

/-- Inverse map, geographic space to pixel space (`~transform * (x, y)`),
per the matrix inverse computed by the `affine` package. -/
def Affine.inv (t : Affine) (p : ℚ × ℚ) : ℚ × ℚ :=
  ((t.e * (p.1 - t.c) - t.b * (p.2 - t.f)) / t.det,
   (t.a * (p.2 - t.f) - t.d * (p.1 - t.c)) / t.det)

/-- An axis-aligned geographic bounding box, in the component order of
shapely `bounds` / `box(minx, miny, maxx, maxy)`. -/
structure GeoBox where
  minx : ℚ
  miny : ℚ
  maxx : ℚ
  maxy : ℚ
  deriving DecidableEq

/-- One YOLO detection record: `class_id x_center y_center width height`,
the four geometric fields normalized by the image dimensions. -/
structure YoloAnn where
  class_id : ℤ
  x_center : ℚ
  y_center : ℚ
  width : ℚ
  height : ℚ
  deriving DecidableEq

/-- `convert_geo_to_pixel_coords` of `tif_shp_to_yolo_png_converter.py`:
maps the two opposite corners `(minx, miny)` and `(maxx, maxy)` of the
geographic box through the inverse transform and returns
`(px_minx, px_maxy, px_maxx, px_miny)` — the two y components swapped. -/
def convert_geo_to_pixel_coords (g : GeoBox) (t : Affine) : ℚ × ℚ × ℚ × ℚ :=
  let p1 := t.inv (g.minx, g.miny)
  let p2 := t.inv (g.maxx, g.maxy)
  (p1.1, p2.2, p2.1, p1.2)

/-- The per-geometry body of `shp_to_yolo`
(`tif_shp_to_yolo_png_converter.py`): pixel box from
`convert_geo_to_pixel_coords`, center/extent, normalization by image
width and height, fixed class id `0`. -/
def shp_to_yolo_ann (g : GeoBox) (t : Affine) (W H : ℚ) : YoloAnn :=
  let px := convert_geo_to_pixel_coords g t
  let px_minx := px.1
  let px_miny := px.2.1
  let px_maxx := px.2.2.1
  let px_maxy := px.2.2.2
  { class_id := 0
    x_center := (px_minx + px_maxx) / 2 / W
    y_center := (px_miny + px_maxy) / 2 / H
    width := (px_maxx - px_minx) / W
    height := (px_maxy - px_miny) / H }

/-- One input row of the shapefile read by `shp_to_yolo`: the code uses
only `row['geometry'].bounds`; any class attribute on the row is
carried but never read. -/
structure ShpRow where
  geometry : GeoBox
  classAttr : ℤ

/-- `shp_to_yolo` over the rows of the shapefile: one YOLO record per
geometry, in order. -/
def shp_to_yolo (rows : List ShpRow) (t : Affine) (W H : ℚ) : List YoloAnn :=
  rows.map (fun r => shp_to_yolo_ann r.geometry t W H)

/-- The per-record body of `detections_to_shp` (`yolo2shp.py`):
denormalize to pixel corners, map the two corners through the forward
transform, build `box(top_left[0], bottom_right[1], bottom_right[0],
top_left[1])`. -/
def detections_to_shp_geom (r : YoloAnn) (t : Affine) (W H : ℚ) : GeoBox :=
  let x1 := (r.x_center - r.width / 2) * W
  let y1 := (r.y_center - r.height / 2) * H
  let x2 := (r.x_center + r.width / 2) * W
  let y2 := (r.y_center + r.height / 2) * H
  let tl := t.fwd (x1, y1)
  let br := t.fwd (x2, y2)
  { minx := tl.1, miny := br.2, maxx := br.1, maxy := tl.2 }

/-- `detections_to_shp` over the parsed detection records: one geometry
per record, paired with the record's class id, in order. -/
def detections_to_shp (recs : List YoloAnn) (t : Affine) (W H : ℚ) :
    List (GeoBox × ℤ) :=
  recs.map (fun r => (detections_to_shp_geom r t W H, r.class_id))

/-- The pixel-space bounding box demanded by the design document: map
all four corners of the geographic box through the inverse transform
and take the min/max over the four mapped corners.  Returned as
`(min col, min row, max col, max row)`. -/
def specFourCornerPixelBox (g : GeoBox) (t : Affine) : ℚ × ℚ × ℚ × ℚ :=
  let p1 := t.inv (g.minx, g.miny)
  let p2 := t.inv (g.minx, g.maxy)
  let p3 := t.inv (g.maxx, g.miny)
  let p4 := t.inv (g.maxx, g.maxy)
  (min (min p1.1 p2.1) (min p3.1 p4.1),
   min (min p1.2 p2.2) (min p3.2 p4.2),
   max (max p1.1 p2.1) (max p3.1 p4.1),
   max (max p1.2 p2.2) (max p3.2 p4.2))

/-- `draw_bounding_boxes` (`draw_bboxes.py`): for every line of the label
file, denormalize and compute the rectangle `(left, top, right, bottom)`
passed to the drawing call.  No field is validated. -/
def draw_bounding_boxes (lines : List YoloAnn) (W H : ℚ) : List (ℚ × ℚ × ℚ × ℚ) :=
  lines.map (fun r =>
    let xc := r.x_center * W
    let yc := r.y_center * H
    let w := r.width * W
    let h := r.height * H
    (xc - w / 2, yc - h / 2, xc + w / 2, yc + h / 2))

/-- The nodata threshold of `tif2png.py`: samples are valid iff strictly
greater than `-3.40282e+38`. -/
def NODATA_THR : ℚ := -(340282 * 10 ^ 33)

/-- `np.clip(x, lo, hi) = np.minimum(np.maximum(x, lo), hi)`. -/
def clipSample (x lo hi : ℚ) : ℚ := min (max x lo) hi

/-- `np.percentile(l, q)` with the default linear interpolation: on the
sorted data `s` of length `n`, the value at fractional position
`q/100 * (n-1)`. -/
def percentile (l : List ℚ) (q : ℚ) : ℚ :=
  let s := l.insertionSort (· ≤ ·)
  if s.length = 0 then 0
  else
    let pos : ℚ := q / 100 * ((s.length : ℚ) - 1)
    let i : ℕ := (⌊pos⌋).toNat
    let lo := s.getD i 0
    let hi := s.getD (i + 1) lo
    lo + (pos - (i : ℚ)) * (hi - lo)

/-- The per-sample scaling `(clip(x, p2, p98) - p2) / (p98 - p2) * 255`
of `convert_tif_to_png`.  When `p98 - p2 = 0` the float division is
`0/0`, a NaN, modelled as `none`. -/
def scaleSample (p2 p98 x : ℚ) : Option ℚ :=
  if p98 - p2 = 0 then none
  else some ((clipSample x p2 p98 - p2) / (p98 - p2) * 255)

/-- The per-band body of `convert_tif_to_png` (`tif2png.py`): percentiles
over the valid samples only; `none` when the band has no valid sample
(the `continue` dropping the band); otherwise every valid sample is
clipped and scaled and every invalid sample's output is overridden
with 0. -/
def processBand (thr : ℚ) (band : List ℚ) : Option (List (Option ℚ)) :=
  let valid := band.filter (fun x => thr < x)
  if valid.isEmpty then none
  else
    some (band.map (fun x =>
      if thr < x then scaleSample (percentile valid 2) (percentile valid 98) x
      else some 0))

/-- Outcome of `convert_tif_to_png` (`tif2png.py`): no file written when
every band was dropped, an RGB image when exactly 3 scaled bands
remain, and a raised error otherwise (`Image.fromarray` with mode
`RGB` rejects a stack of fewer than 3 bands). -/
inductive PngResult where
  | noOutput
  | output (bands : List (List (Option ℚ)))
  | rgbError
  deriving DecidableEq

/-- `convert_tif_to_png` (`tif2png.py`) on the first three bands of the
raster. -/
def convert_tif_to_png (b1 b2 b3 : List ℚ) : PngResult :=
  let scaled := [processBand NODATA_THR b1, processBand NODATA_THR b2,
    processBand NODATA_THR b3].reduceOption
  if scaled.isEmpty then .noOutput
  else if scaled.length = 3 then .output scaled
  else .rgbError

/-- An output sample is a finite number within `[0, 255]`. -/
def inRange255 : Option ℚ → Prop
  | none => False
  | some y => 0 ≤ y ∧ y ≤ 255

/-- The per-band output contract of the design, relative to a given
result of `processBand`: the band is not dropped, the output has one
sample per input sample, invalid positions are exactly 0 and valid
positions hold a finite value within `[0, 255]`. -/
def bandOutputOkAux (thr : ℚ) (band : List ℚ) : Option (List (Option ℚ)) → Prop
  | none => False
  | some out =>
      out.length = band.length ∧
      ∀ i : Fin band.length,
        if thr < band.get i then inRange255 (out.getD i none)
        else out.getD i none = some 0

/-- The per-band output contract of the design, applied to the band's
actual `processBand` result. -/
def bandOutputOk (thr : ℚ) (band : List ℚ) : Prop :=
  bandOutputOkAux thr band (processBand thr band)

/-- A raster dataset: dimensions, affine transform and band arrays
(each band a list of rows of samples). -/
structure Raster where
  width : ℕ
  height : ℕ
  transform : Affine
  bands : List (List (List ℚ))

/-- Well-formedness of a raster: every band has `height` rows of
`width` samples. -/
def Raster.wf (r : Raster) : Prop :=
  ∀ band ∈ r.bands, band.length = r.height ∧ ∀ row ∈ band, row.length = r.width

/-- The error raised by `rasterio.mask.mask` (and re-raised by
`clip_raster_with_polygon`) when the shapes do not overlap the
raster. -/
inductive ClipError where
  | emptyIntersection
  deriving DecidableEq

/-- The pixel window of `rasterio.mask.mask` with `crop=True`
(`geometry_window`): the geometry's bounds are inverted through the
(north-up) transform, the resulting window is intersected with the
raster's own window, offsets rounded down and ends rounded up, and an
empty intersection raises. -/
def geoWindow (t : Affine) (W H : ℕ) (g : GeoBox) : Option (ℕ × ℕ × ℕ × ℕ) :=
  let colOff := (g.minx - t.c) / t.a
  let rowOff := (g.maxy - t.f) / t.e
  let wq := (g.maxx - g.minx) / t.a
  let hq := (g.miny - g.maxy) / t.e
  let c0 : ℤ := max ⌊colOff⌋ 0
  let r0 : ℤ := max ⌊rowOff⌋ 0
  let c1 : ℤ := min ⌈colOff + wq⌉ (W : ℤ)
  let r1 : ℤ := min ⌈rowOff + hq⌉ (H : ℤ)
  if c0 < c1 ∧ r0 < r1 then
    some (c0.toNat, r0.toNat, (c1 - c0).toNat, (r1 - r0).toNat)
  else none

/-- Membership of a point in an axis-aligned rectangle; the clip
polygon is modelled as the rectangle spanning its bounds. -/
def insideRect (g : GeoBox) (p : ℚ × ℚ) : Prop :=
  g.minx ≤ p.1 ∧ p.1 ≤ g.maxx ∧ g.miny ≤ p.2 ∧ p.2 ≤ g.maxy

instance (g : GeoBox) (p : ℚ × ℚ) : Decidable (insideRect g p) :=
  decidable_of_iff (g.minx ≤ p.1 ∧ p.1 ≤ g.maxx ∧ g.miny ≤ p.2 ∧ p.2 ≤ g.maxy)
    Iff.rfl

/-- `clip_raster_with_polygon` (`raster_clipper.py`) specialised to an
axis-aligned rectangular polygon, for which the rectangle membership
test is exact: `mask` with `crop=True` crops every band to the window,
zeroes samples whose pixel center falls outside the polygon, and the
output transform is the source transform composed with the translation
by the window offsets (`out_transform`); an empty window intersection
raises, and the `except` block re-raises it.  The general-polygon form
is `clip_raster_with_ring` below. -/
def clip_raster_with_polygon (r : Raster) (g : GeoBox) : Except ClipError Raster :=
  match geoWindow r.transform r.width r.height g with
  | none => .error .emptyIntersection
  | some (c0, r0, w, h) =>
      let t := r.transform
      let outT : Affine :=
        ⟨t.a, t.b, t.a * c0 + t.b * r0 + t.c, t.d, t.e, t.d * c0 + t.e * r0 + t.f⟩
      let outBands := r.bands.map (fun band =>
        (List.range h).map (fun i =>
          (List.range w).map (fun j =>
            if insideRect g
                (t.fwd (((c0 + j : ℕ) : ℚ) + 1/2, ((r0 + i : ℕ) : ℚ) + 1/2))
            then (band.getD (r0 + i) []).getD (c0 + j) 0
            else 0)))
      .ok ⟨w, h, outT, outBands⟩

/-- The geographic extent of a raster (`src.bounds` for a north-up
transform): left `c`, bottom `e*H + f`, right `a*W + c`, top `f`. -/
def fullExtent (r : Raster) : GeoBox :=
  ⟨r.transform.c, r.transform.e * r.height + r.transform.f,
   r.transform.a * r.width + r.transform.c, r.transform.f⟩

/-- Even-odd crossing test of a rightward horizontal ray from `p`
against the edge from `a` to `b`, as in standard polygon
rasterization. -/
def edgeCrosses (p a b : ℚ × ℚ) : Bool :=
  decide (((a.2 ≤ p.2 ∧ p.2 < b.2) ∨ (b.2 ≤ p.2 ∧ p.2 < a.2)) ∧
    p.1 < a.1 + (p.2 - a.2) * (b.1 - a.1) / (b.2 - a.2))

/-- Even-odd point-in-polygon test for a closed vertex ring (first
vertex repeated last, as in GeoJSON/shapely coordinates): the point is
inside when the ray crosses an odd number of edges.  This is the
center-inside rule of the rasterization behind `geometry_mask`. -/
def pointInRing (ring : List (ℚ × ℚ)) (p : ℚ × ℚ) : Bool :=
  decide ((ring.zip ring.tail).countP (fun ab => edgeCrosses p ab.1 ab.2) % 2 = 1)

/-- The bounds of a vertex ring (shapely `polygon.bounds`): min/max of
the vertex coordinates. -/
def ringBounds : List (ℚ × ℚ) → GeoBox
  | [] => ⟨0, 0, 0, 0⟩
  | v :: vs =>
      vs.foldl
        (fun g p => ⟨min g.minx p.1, min g.miny p.2, max g.maxx p.1, max g.maxy p.2⟩)
        ⟨v.1, v.2, v.1, v.2⟩

/-- The polygon's region does not meet the rectangle: no point of the
rectangle lies inside the ring. -/
def ringDisjointFromRect (ring : List (ℚ × ℚ)) (g : GeoBox) : Prop :=
  ∀ p : ℚ × ℚ, insideRect g p → pointInRing ring p = false

/-- `clip_raster_with_polygon` (`raster_clipper.py`) for a general
polygon ring: the crop window — and with it the decision to raise —
comes from the polygon's *bounds* only (`geometry_window`), while the
per-cell mask keeps the samples whose pixel center lies inside the
polygon and zeroes the rest; the output transform is the source
transform translated by the window offsets. -/
def clip_raster_with_ring (r : Raster) (ring : List (ℚ × ℚ)) :
    Except ClipError Raster :=
  match geoWindow r.transform r.width r.height (ringBounds ring) with
  | none => .error .emptyIntersection
  | some (c0, r0, w, h) =>
      let t := r.transform
      let outT : Affine :=
        ⟨t.a, t.b, t.a * c0 + t.b * r0 + t.c, t.d, t.e, t.d * c0 + t.e * r0 + t.f⟩
      let outBands := r.bands.map (fun band =>
        (List.range h).map (fun i =>
          (List.range w).map (fun j =>
            if pointInRing ring
                (t.fwd (((c0 + j : ℕ) : ℚ) + 1/2, ((r0 + i : ℕ) : ℚ) + 1/2))
            then (band.getD (r0 + i) []).getD (c0 + j) 0
            else 0)))
      .ok ⟨w, h, outT, outBands⟩

/-- C1: for a rotation-free invertible transform and positive image
dimensions, converting a geographic box to a normalized YOLO record
(`shp_to_yolo`) and back to a geographic box (`detections_to_shp`)
reproduces the box exactly (exact rationals stand in for
floating-point tolerance).  The theorem holds for every box, in
particular for boxes inside the raster extent. -/
theorem geo_yolo_roundtrip_rotation_free (g : GeoBox) (t : Affine) (W H : ℚ)
    (hb : t.b = 0) (hd : t.d = 0) (ha : t.a ≠ 0) (he : t.e ≠ 0)
    (hW : 0 < W) (hH : 0 < H) :
    detections_to_shp_geom (shp_to_yolo_ann g t W H) t W H = g := by
  obtain ⟨a, b, c, d, e, f⟩ := t
  obtain ⟨minx, miny, maxx, maxy⟩ := g
  simp only at hb hd ha he
  subst hb hd
  simp only [detections_to_shp_geom, shp_to_yolo_ann, convert_geo_to_pixel_coords,
    Affine.fwd, Affine.inv, Affine.det, GeoBox.mk.injEq]
  have hW0 : W ≠ 0 := ne_of_gt hW
  have hH0 : H ≠ 0 := ne_of_gt hH
  refine ⟨?_, ?_, ?_, ?_⟩ <;> field_simp <;> ring

/-- C1 witness: the round trip at the 100×100 identity-transform raster
with box [10,10]-[30,40]. -/
theorem geo_yolo_roundtrip_rotation_free_witness :
    detections_to_shp_geom
      (shp_to_yolo_ann ⟨10, 10, 30, 40⟩ ⟨1, 0, 0, 0, 1, 0⟩ 100 100)
      ⟨1, 0, 0, 0, 1, 0⟩ 100 100 = ⟨10, 10, 30, 40⟩ :=
  geo_yolo_roundtrip_rotation_free ⟨10, 10, 30, 40⟩ ⟨1, 0, 0, 0, 1, 0⟩ 100 100
    rfl rfl (by norm_num) (by norm_num) (by norm_num) (by norm_num)

/-- C2: the code maps only the two opposite corners of the geographic
box.  Under the shear transform `(1,1,0,0,1,0)` and box [0,0]-[1,1],
the code's pixel tuple is `(0, 1, 0, 0)` (pixel x extent collapsed to
`[0,0]`), while the four-corner min/max bounding box required by the
design is `(-1, 0, 1, 1)` (pixel x extent `[-1,1]`). -/
theorem convert_geo_to_pixel_coords_two_corners_shear :
    convert_geo_to_pixel_coords ⟨0, 0, 1, 1⟩ ⟨1, 1, 0, 0, 1, 0⟩ = (0, 1, 0, 0) ∧
    specFourCornerPixelBox ⟨0, 0, 1, 1⟩ ⟨1, 1, 0, 0, 1, 0⟩ = (-1, 0, 1, 1) := by
  constructor <;> norm_num [convert_geo_to_pixel_coords, specFourCornerPixelBox,
    Affine.inv, Affine.det]

/-- Concrete evaluation of `shp_to_yolo` on the design's end-to-end
scenario: the height comes out negative. -/
theorem shp_to_yolo_identity_eval :
    shp_to_yolo_ann ⟨10, 10, 30, 40⟩ ⟨1, 0, 0, 0, 1, 0⟩ 100 100 =
      ⟨0, 1/5, 1/4, 1/5, -(3/10)⟩ := by
  norm_num [shp_to_yolo_ann, convert_geo_to_pixel_coords, Affine.inv, Affine.det,
    YoloAnn.mk.injEq]

/-- C3 counterexample: on the 100×100 raster with identity-like
transform `(1,0,0,0,1,0)`, the box [10,10]-[30,40] does not produce the
record `(0, 0.20, 0.25, 0.20, 0.30)` claimed by the design. -/
theorem shp_to_yolo_identity_scenario_ne :
    shp_to_yolo_ann ⟨10, 10, 30, 40⟩ ⟨1, 0, 0, 0, 1, 0⟩ 100 100 ≠
      ⟨0, 1/5, 1/4, 1/5, 3/10⟩ := by
  rw [shp_to_yolo_identity_eval]
  intro h
  have h5 := congrArg YoloAnn.height h
  norm_num at h5

/-- C3 amended: the same scenario yields the record
`(0, 0.20, 0.25, 0.20, -0.30)` — the height is negative because the
corner swap in `convert_geo_to_pixel_coords` assumes a north-up
(negative `e`) transform — and converting that record back still yields
the box [10,10]-[30,40]. -/
theorem shp_to_yolo_identity_scenario :
    shp_to_yolo_ann ⟨10, 10, 30, 40⟩ ⟨1, 0, 0, 0, 1, 0⟩ 100 100 =
      ⟨0, 1/5, 1/4, 1/5, -(3/10)⟩ ∧
    detections_to_shp_geom ⟨0, 1/5, 1/4, 1/5, -(3/10)⟩ ⟨1, 0, 0, 0, 1, 0⟩ 100 100 =
      ⟨10, 10, 30, 40⟩ := by
  refine ⟨shp_to_yolo_identity_eval, ?_⟩
  norm_num [detections_to_shp_geom, Affine.fwd, GeoBox.mk.injEq]

/-- C9 counterexample: a detection record with class id `-1` is not
rejected — `detections_to_shp` converts it and writes the class id
through to the output feature. -/
theorem detections_to_shp_accepts_negative_class :
    detections_to_shp [⟨-1, 1/2, 1/2, 1/5, 1/5⟩] ⟨1, 0, 0, 0, 1, 0⟩ 100 100 =
      [(⟨40, 60, 60, 40⟩, -1)] := by
  norm_num [detections_to_shp, detections_to_shp_geom, Affine.fwd,
    GeoBox.mk.injEq, Prod.ext_iff]

/-- C9 amended: the annotation code performs no validation at all —
`detections_to_shp` converts every record (negative class ids and
non-positive widths/heights included) and preserves its class id, and
`draw_bounding_boxes` computes a rectangle for every label line. -/
theorem annotation_codec_no_validation (recs : List YoloAnn) (t : Affine) (W H : ℚ) :
    (detections_to_shp recs t W H).map Prod.snd = recs.map YoloAnn.class_id ∧
    (detections_to_shp recs t W H).length = recs.length ∧
    (draw_bounding_boxes recs W H).length = recs.length := by
  refine ⟨?_, ?_, ?_⟩ <;> simp [detections_to_shp, draw_bounding_boxes]

/-- C10: every record written by `shp_to_yolo` has class id 0, whatever
class attribute the input rows carry. -/
theorem shp_to_yolo_class_id_zero (rows : List ShpRow) (t : Affine) (W H : ℚ) :
    ∀ ann ∈ shp_to_yolo rows t W H, ann.class_id = 0 := by
  intro ann hann
  simp only [shp_to_yolo, List.mem_map] at hann
  obtain ⟨r, _, rfl⟩ := hann
  rfl

/-- C10 witness: a row whose class attribute is 7 still yields class id 0. -/
theorem shp_to_yolo_class_id_zero_witness :
    (shp_to_yolo_ann ⟨10, 10, 30, 40⟩ ⟨1, 0, 0, 0, 1, 0⟩ 100 100).class_id = 0 :=
  shp_to_yolo_class_id_zero [⟨⟨10, 10, 30, 40⟩, 7⟩] ⟨1, 0, 0, 0, 1, 0⟩ 100 100
    (shp_to_yolo_ann ⟨10, 10, 30, 40⟩ ⟨1, 0, 0, 0, 1, 0⟩ 100 100)
    (by simp [shp_to_yolo])

/-- Evaluation: the 2nd and 98th percentiles of the valid samples
`[0, 100]`. -/
theorem percentile_01_eval :
    percentile [(0:ℚ), 100] 2 = 2 ∧ percentile [(0:ℚ), 100] 98 = 98 := by
  constructor <;>
    norm_num [percentile, List.insertionSort, List.orderedInsert, List.getD]

/-- Evaluation: both percentiles of a constant sample list coincide. -/
theorem percentile_const_eval :
    percentile [(5:ℚ), 5, 5] 2 = 5 ∧ percentile [(5:ℚ), 5, 5] 98 = 5 := by
  constructor <;>
    norm_num [percentile, List.insertionSort, List.orderedInsert, List.getD]

/-- Evaluation: a band whose valid samples are `[0, 100]` scales them to
0 and 255. -/
theorem processBand_01_eval :
    processBand NODATA_THR [0, 100] = some [some 0, some 255] := by
  have h2 := percentile_01_eval.1
  have h98 := percentile_01_eval.2
  norm_num [processBand, NODATA_THR, List.filter] at h2 h98 ⊢
  norm_num [h2, h98, scaleSample, clipSample, min_def, max_def]

/-- Evaluation: a band with no valid sample is dropped. -/
theorem processBand_invalid_eval :
    processBand NODATA_THR [-(10^40 : ℚ), -(10^40 : ℚ)] = none := by
  norm_num [processBand, NODATA_THR, List.filter]

/-- Evaluation: a constant valid band has `p98 - p2 = 0`, so every valid
output sample is the NaN of the `0/0` division. -/
theorem processBand_const_eval :
    processBand NODATA_THR [5, 5, 5] = some [none, none, none] := by
  have h2 := percentile_const_eval.1
  have h98 := percentile_const_eval.2
  norm_num [processBand, NODATA_THR, List.filter] at h2 h98 ⊢
  norm_num [h2, h98, scaleSample]

/-- C4 counterexample: the band `[5, 5, 5]` has valid samples, yet its
valid output positions are the NaN of a `0/0` division, not finite
values within `[0, 255]`. -/
theorem processBand_output_not_always_in_range :
    ¬ bandOutputOk NODATA_THR [5, 5, 5] := by
  intro h
  unfold bandOutputOk at h
  rw [processBand_const_eval] at h
  simp only [bandOutputOkAux] at h
  have h0 := h.2 ⟨0, by norm_num⟩
  norm_num [inRange255, NODATA_THR, List.getD, List.get] at h0

/-- C4 amended: whenever a band has a valid sample and its 2nd and 98th
valid-sample percentiles differ, `processBand` keeps the band, its
output has one sample per input sample, every invalid position is
exactly 0 and every valid position is a finite value within
`[0, 255]`. -/
theorem processBand_output_ok (thr : ℚ) (band : List ℚ)
    (hvalid : (band.filter (fun x => thr < x)).isEmpty = false)
    (hpct : percentile (band.filter (fun x => thr < x)) 2 ≠
        percentile (band.filter (fun x => thr < x)) 98) :
    bandOutputOk thr band := by
  unfold bandOutputOk processBand
  set p2 := percentile (band.filter (fun x => thr < x)) 2 with hp2
  set p98 := percentile (band.filter (fun x => thr < x)) 98 with hp98
  rw [if_neg (by simp [hvalid])]
  simp only [bandOutputOkAux, List.length_map]
  refine ⟨trivial, ?_⟩
  intro i
  have hlen : (i : ℕ) < (band.map (fun x =>
      if thr < x then scaleSample p2 p98 x else some 0)).length := by
    simpa using i.isLt
  rw [List.getD_eq_get _ _ hlen, List.get_map]
  by_cases hx : thr < band.get ⟨i, by simpa using i.isLt⟩
  · have hi : band.get ⟨(i : ℕ), by simpa using i.isLt⟩ = band.get i := rfl
    rw [hi] at hx
    rw [if_pos hx, if_pos hx]
    have hD : p98 - p2 ≠ 0 := sub_ne_zero.mpr (Ne.symm hpct)
    unfold scaleSample
    rw [if_neg hD]
    set x := band.get i
    rcases lt_or_gt_of_ne hpct with hlt | hgt
    · have hDpos : 0 < p98 - p2 := by linarith
      have hc1 : p2 ≤ clipSample x p2 p98 :=
        le_min (le_max_right x p2) (le_of_lt hlt)
      have hc2 : clipSample x p2 p98 ≤ p98 := min_le_right _ _
      refine ⟨?_, ?_⟩
      · exact mul_nonneg (div_nonneg (by linarith) (le_of_lt hDpos)) (by norm_num)
      · rw [div_mul_eq_mul_div, div_le_iff hDpos]
        nlinarith
    · have hcl : clipSample x p2 p98 = p98 :=
        min_eq_right (le_trans (le_of_lt hgt) (le_max_right x p2))
      rw [hcl, div_self hD]
      exact ⟨by norm_num, by norm_num⟩
  · have hi : band.get ⟨(i : ℕ), by simpa using i.isLt⟩ = band.get i := rfl
    rw [hi] at hx
    rw [if_neg hx, if_neg hx]

/-- C4 witness: the band `[0, 100, -(10^40)]` has one invalid sample;
the output keeps it at 0 and scales the valid samples into range. -/
theorem processBand_output_ok_witness :
    bandOutputOk NODATA_THR [0, 100, -(10^40 : ℚ)] :=
  processBand_output_ok NODATA_THR [0, 100, -(10^40 : ℚ)]
    (by norm_num [List.filter, NODATA_THR])
    (by
      have h : List.filter (fun x => decide (NODATA_THR < x))
          [0, 100, -(10^40 : ℚ)] = [0, 100] := by
        norm_num [List.filter, NODATA_THR]
      rw [h]
      rw [percentile_01_eval.1, percentile_01_eval.2]
      norm_num)

/-- C5: on a band whose valid samples are all equal the scaling divisor
`p98 - p2` is exactly 0, and the resulting `0/0` division makes every
valid output sample a NaN — not the mid-gray constant the design
requires. -/
theorem constant_band_divides_by_zero :
    percentile [(5:ℚ), 5, 5] 98 - percentile [(5:ℚ), 5, 5] 2 = 0 ∧
    processBand NODATA_THR [5, 5, 5] = some [none, none, none] := by
  refine ⟨?_, processBand_const_eval⟩
  rw [percentile_const_eval.1, percentile_const_eval.2]
  norm_num

/-- C8: a band with no valid sample is dropped (`processBand` is
`none`); if every band is dropped the conversion writes nothing; if at
least one but fewer than three bands survive, the conversion errors
out instead of producing an image. -/
theorem convert_tif_to_png_band_policy :
    (∀ b : List ℚ, (b.filter (fun x => NODATA_THR < x)).isEmpty = true →
        processBand NODATA_THR b = none) ∧
    (∀ b1 b2 b3 : List ℚ,
        ([processBand NODATA_THR b1, processBand NODATA_THR b2,
          processBand NODATA_THR b3].reduceOption).length = 0 →
        convert_tif_to_png b1 b2 b3 = .noOutput) ∧
    (∀ b1 b2 b3 : List ℚ,
        0 < ([processBand NODATA_THR b1, processBand NODATA_THR b2,
          processBand NODATA_THR b3].reduceOption).length →
        ([processBand NODATA_THR b1, processBand NODATA_THR b2,
          processBand NODATA_THR b3].reduceOption).length < 3 →
        convert_tif_to_png b1 b2 b3 = .rgbError) := by
  refine ⟨?_, ?_, ?_⟩
  · intro b hb
    simp [processBand, hb]
  · intro b1 b2 b3 h
    rw [List.length_eq_zero] at h
    simp [convert_tif_to_png, h]
  · intro b1 b2 b3 h1 h3
    unfold convert_tif_to_png
    rw [if_neg, if_neg]
    · omega
    · intro hempty
      rw [List.isEmpty_iff] at hempty
      rw [hempty] at h1
      simp at h1

/-- C8 witness: three all-invalid bands yield no output; one usable band
among three yields the RGB-stacking error. -/
theorem convert_tif_to_png_band_policy_witness :
    convert_tif_to_png [-(10^40 : ℚ), -(10^40 : ℚ)] [-(10^40 : ℚ), -(10^40 : ℚ)]
      [-(10^40 : ℚ), -(10^40 : ℚ)] = .noOutput ∧
    convert_tif_to_png [0, 100] [-(10^40 : ℚ), -(10^40 : ℚ)]
      [-(10^40 : ℚ), -(10^40 : ℚ)] = .rgbError := by
  constructor
  · exact convert_tif_to_png_band_policy.2.1 _ _ _
      (by rw [processBand_invalid_eval]; rfl)
  · exact convert_tif_to_png_band_policy.2.2 _ _ _
      (by rw [processBand_invalid_eval, processBand_01_eval]; norm_num)
      (by rw [processBand_invalid_eval, processBand_01_eval]; norm_num)

/-- When the polygon's bounds lie fully outside the raster extent the
window intersection is empty. -/
theorem geoWindow_none_of_outside (t : Affine) (W H : ℕ) (g : GeoBox)
    (ha : 0 < t.a) (he : t.e < 0)
    (hout : g.maxx ≤ t.c ∨ t.a * W + t.c ≤ g.minx ∨
        g.maxy ≤ t.e * H + t.f ∨ t.f ≤ g.miny) :
    geoWindow t W H g = none := by
  simp only [geoWindow]
  split
  · rename_i hcond
    exfalso
    obtain ⟨hc, hr⟩ := hcond
    rcases hout with h1 | h2 | h3 | h4
    · have hpos := lt_of_lt_of_le (lt_of_le_of_lt (le_max_right _ _) hc)
        (min_le_left _ _)
      have hq := Int.lt_ceil.mp hpos
      rw [div_add_div_same] at hq
      push_cast at hq
      have := (lt_div_iff₀ ha).mp hq
      linarith
    · have hlt := lt_of_lt_of_le (lt_of_le_of_lt (le_max_left _ _) hc)
        (min_le_right _ _)
      have hq := Int.floor_lt.mp hlt
      push_cast at hq
      have := (div_lt_iff₀ ha).mp hq
      linarith
    · have hlt := lt_of_lt_of_le (lt_of_le_of_lt (le_max_left _ _) hr)
        (min_le_right _ _)
      have hq := Int.floor_lt.mp hlt
      push_cast at hq
      have := (div_lt_iff_of_neg he).mp hq
      linarith
    · have hpos := lt_of_lt_of_le (lt_of_le_of_lt (le_max_right _ _) hr)
        (min_le_left _ _)
      have hq := Int.lt_ceil.mp hpos
      rw [div_add_div_same] at hq
      push_cast at hq
      have := (lt_div_iff_of_neg he).mp hq
      linarith
  · rfl

/-- C6 counterexample: an L-shaped polygon hugging the corner of the
2×2 raster with extent [0,2]×[0,2] — its region is disjoint from the
extent, but its bounds [-2,3]×[-2,3] overlap it, so the bounds-only
window check raises nothing and the clip silently returns a non-empty,
fully masked (all-zero) crop instead of the empty-intersection
error. -/
theorem clip_disjoint_polygon_not_rejected :
    ringDisjointFromRect
      [(-2, -2), (3, -2), (3, -1), (-1, -1), (-1, 3), (-2, 3), (-2, -2)]
      (fullExtent ⟨2, 2, ⟨1, 0, 0, 0, -1, 2⟩, [[[1, 2], [3, 4]]]⟩) ∧
    clip_raster_with_ring ⟨2, 2, ⟨1, 0, 0, 0, -1, 2⟩, [[[1, 2], [3, 4]]]⟩
      [(-2, -2), (3, -2), (3, -1), (-1, -1), (-1, 3), (-2, 3), (-2, -2)] =
      .ok ⟨2, 2, ⟨1, 0, 0, 0, -1, 2⟩, [[[0, 0], [0, 0]]]⟩ := by
  have hdisj : ringDisjointFromRect
      [(-2, -2), (3, -2), (3, -1), (-1, -1), (-1, 3), (-2, 3), (-2, -2)]
      (fullExtent ⟨2, 2, ⟨1, 0, 0, 0, -1, 2⟩, [[[1, 2], [3, 4]]]⟩) := by
    intro p hp
    simp only [insideRect, fullExtent] at hp
    obtain ⟨h1, h2, h3, h4⟩ := hp
    norm_num at h1 h2 h3 h4
    have e1 : edgeCrosses p ((-2 : ℚ), (-2 : ℚ)) ((3 : ℚ), (-2 : ℚ)) = false := by
      simp only [edgeCrosses, decide_eq_false_iff_not]
      rintro ⟨hy, -⟩
      rcases hy with ⟨hy1, hy2⟩ | ⟨hy1, hy2⟩ <;> norm_num at hy1 hy2 <;> linarith
    have e2 : edgeCrosses p ((3 : ℚ), (-2 : ℚ)) ((3 : ℚ), (-1 : ℚ)) = false := by
      simp only [edgeCrosses, decide_eq_false_iff_not]
      rintro ⟨hy, -⟩
      rcases hy with ⟨hy1, hy2⟩ | ⟨hy1, hy2⟩ <;> norm_num at hy1 hy2 <;> linarith
    have e3 : edgeCrosses p ((3 : ℚ), (-1 : ℚ)) ((-1 : ℚ), (-1 : ℚ)) = false := by
      simp only [edgeCrosses, decide_eq_false_iff_not]
      rintro ⟨hy, -⟩
      rcases hy with ⟨hy1, hy2⟩ | ⟨hy1, hy2⟩ <;> norm_num at hy1 hy2 <;> linarith
    have e4 : edgeCrosses p ((-1 : ℚ), (-1 : ℚ)) ((-1 : ℚ), (3 : ℚ)) = false := by
      simp only [edgeCrosses, decide_eq_false_iff_not]
      rintro ⟨-, hx⟩
      norm_num at hx
      linarith
    have e5 : edgeCrosses p ((-1 : ℚ), (3 : ℚ)) ((-2 : ℚ), (3 : ℚ)) = false := by
      simp only [edgeCrosses, decide_eq_false_iff_not]
      rintro ⟨hy, -⟩
      rcases hy with ⟨hy1, hy2⟩ | ⟨hy1, hy2⟩ <;> norm_num at hy1 hy2 <;> linarith
    have e6 : edgeCrosses p ((-2 : ℚ), (3 : ℚ)) ((-2 : ℚ), (-2 : ℚ)) = false := by
      simp only [edgeCrosses, decide_eq_false_iff_not]
      rintro ⟨-, hx⟩
      norm_num at hx
      linarith
    simp only [pointInRing, List.tail_cons, List.zip_cons_cons, List.zip_nil_right,
      List.countP_cons, List.countP_nil, e1, e2, e3, e4, e5, e6]
    rfl
  refine ⟨hdisj, ?_⟩
  have hb : ringBounds
      [((-2 : ℚ), (-2 : ℚ)), (3, -2), (3, -1), (-1, -1), (-1, 3), (-2, 3), (-2, -2)] =
      ⟨-2, -2, 3, 3⟩ := by
    simp only [ringBounds, List.foldl]
    rw [GeoBox.mk.injEq]
    norm_num [min_def, max_def]
  have hw : geoWindow ⟨1, 0, 0, 0, -1, 2⟩ 2 2 ⟨-2, -2, 3, 3⟩ = some (0, 0, 2, 2) := by
    simp only [geoWindow]
    norm_num [min_def, max_def]
    omega
  unfold clip_raster_with_ring
  dsimp only
  rw [hb, hw]
  dsimp only
  apply congrArg
  rw [Raster.mk.injEq]
  refine ⟨rfl, rfl, by rw [Affine.mk.injEq]; norm_num, ?_⟩
  have hr2 : List.range 2 = [0, 1] := rfl
  rw [hr2]
  simp only [List.map_cons, List.map_nil]
  norm_num [Affine.fwd, pointInRing, edgeCrosses, List.tail_cons, List.zip_cons_cons,
    List.zip_nil_right, List.countP_cons, List.countP_nil]

/-- C6 amended: the clip raises the empty-intersection error whenever
the polygon's *bounds* lie wholly outside the raster extent — the
overlap check of the crop window uses only the geometry's bounds. -/
theorem clip_ring_outside_bounds_errors (r : Raster) (ring : List (ℚ × ℚ))
    (ha : 0 < r.transform.a) (he : r.transform.e < 0)
    (hout : (ringBounds ring).maxx ≤ r.transform.c ∨
        r.transform.a * r.width + r.transform.c ≤ (ringBounds ring).minx ∨
        (ringBounds ring).maxy ≤ r.transform.e * r.height + r.transform.f ∨
        r.transform.f ≤ (ringBounds ring).miny) :
    clip_raster_with_ring r ring = .error .emptyIntersection := by
  unfold clip_raster_with_ring
  rw [geoWindow_none_of_outside r.transform r.width r.height (ringBounds ring)
    ha he hout]

/-- C6 amended witness: a 2×2 raster with extent [0,2]×[0,2] clipped by
the far away square [10,10]-[11,11] errors out. -/
theorem clip_ring_outside_bounds_errors_witness :
    clip_raster_with_ring ⟨2, 2, ⟨1, 0, 0, 0, -1, 2⟩, [[[1, 2], [3, 4]]]⟩
      [(10, 10), (11, 10), (11, 11), (10, 11), (10, 10)] =
      .error .emptyIntersection :=
  clip_ring_outside_bounds_errors ⟨2, 2, ⟨1, 0, 0, 0, -1, 2⟩, [[[1, 2], [3, 4]]]⟩
    [(10, 10), (11, 10), (11, 11), (10, 11), (10, 10)]
    (by norm_num) (by norm_num)
    (Or.inr (Or.inl (by norm_num [ringBounds, List.foldl, min_def, max_def])))

/-- Indexing reconstruction: mapping `getD` over `range` of the length
of a list rebuilds the list. -/
theorem range_map_getD {α : Type _} (xs : List α) (d : α) :
    (List.range xs.length).map (fun j => xs.getD j d) = xs := by
  apply List.ext_getElem
  · simp
  · intro n h1 h2
    simp [List.getD, List.getElem?_eq_getElem h2]

/-- `range_map_getD`, with the length given as an equation. -/
theorem range_map_getD_of_length {α : Type _} (xs : List α) (d : α) (n : ℕ)
    (h : xs.length = n) :
    (List.range n).map (fun j => xs.getD j d) = xs := by
  subst h
  exact range_map_getD xs d

/-- The window of the full raster extent is the full raster window. -/
theorem geoWindow_fullExtent (t : Affine) (W H : ℕ) (ha : 0 < t.a) (he : t.e < 0)
    (hW : 0 < W) (hH : 0 < H) :
    geoWindow t W H ⟨t.c, t.e * H + t.f, t.a * W + t.c, t.f⟩ = some (0, 0, W, H) := by
  have hane : t.a ≠ 0 := ne_of_gt ha
  have hene : t.e ≠ 0 := ne_of_lt he
  simp only [geoWindow]
  have e1 : (t.c - t.c) / t.a = 0 := by rw [sub_self, zero_div]
  have e2 : (t.f - t.f) / t.e = 0 := by rw [sub_self, zero_div]
  have e3 : (t.a * W + t.c - t.c) / t.a = (W : ℚ) := by
    rw [add_sub_cancel_right]
    exact mul_div_cancel_left₀ _ hane
  have e4 : (t.e * H + t.f - t.f) / t.e = (H : ℚ) := by
    rw [add_sub_cancel_right]
    exact mul_div_cancel_left₀ _ hene
  rw [e1, e2, e3, e4, zero_add, zero_add, Int.ceil_natCast, Int.ceil_natCast]
  simp only [Int.floor_zero, max_self, min_self]
  rw [if_pos]
  · simp
  · exact ⟨by exact_mod_cast hW, by exact_mod_cast hH⟩

/-- Pixel centers of the full raster grid lie inside the full extent
rectangle (north-up transform). -/
theorem insideRect_center (a c e f : ℚ) (W H : ℕ) (ha : 0 < a) (he : e < 0)
    (i j : ℕ) (hi : i < H) (hj : j < W) :
    insideRect ⟨c, e * H + f, a * W + c, f⟩
      (Affine.fwd ⟨a, 0, c, 0, e, f⟩ ((j : ℚ) + 1/2, (i : ℚ) + 1/2)) := by
  have hj1 : (j : ℚ) + 1 ≤ W := by exact_mod_cast Nat.succ_le_of_lt hj
  have hi1 : (i : ℚ) + 1 ≤ H := by exact_mod_cast Nat.succ_le_of_lt hi
  have hj0 : (0 : ℚ) ≤ j := Nat.cast_nonneg j
  have hi0 : (0 : ℚ) ≤ i := Nat.cast_nonneg i
  refine ⟨?_, ?_, ?_, ?_⟩ <;> simp only [Affine.fwd] <;> nlinarith

/-- C7: clipping with the full raster extent returns the raster's own
band values and its own transform; and in general the clipped raster's
transform keeps the linear part `(a, b, d, e)` of the source while its
pixel `(0,0)` maps to the same geographic point as the source pixel at
the window offsets. -/
theorem clip_full_extent_and_window_transform :
    (∀ r : Raster, r.wf → 0 < r.transform.a → r.transform.e < 0 →
        r.transform.b = 0 → r.transform.d = 0 → 0 < r.width → 0 < r.height →
        clip_raster_with_polygon r (fullExtent r) =
          .ok ⟨r.width, r.height, r.transform, r.bands⟩) ∧
    (∀ (r : Raster) (g : GeoBox) (out : Raster),
        clip_raster_with_polygon r g = .ok out →
        out.transform.a = r.transform.a ∧ out.transform.b = r.transform.b ∧
        out.transform.d = r.transform.d ∧ out.transform.e = r.transform.e ∧
        ∃ c0 r0 : ℕ,
          geoWindow r.transform r.width r.height g =
            some (c0, r0, out.width, out.height) ∧
          out.transform.fwd (0, 0) = r.transform.fwd ((c0 : ℚ), (r0 : ℚ))) := by
  constructor
  · intro r hwf ha he hb hd hW hH
    obtain ⟨W, H, t, bands⟩ := r
    obtain ⟨a, b, c, d, e, f⟩ := t
    dsimp only [Raster.wf] at hwf
    dsimp only at ha he hb hd hW hH ⊢
    subst hb hd
    unfold clip_raster_with_polygon
    have hwin := geoWindow_fullExtent ⟨a, 0, c, 0, e, f⟩ W H ha he hW hH
    rw [show fullExtent ⟨W, H, ⟨a, 0, c, 0, e, f⟩, bands⟩ =
        ⟨c, e * H + f, a * W + c, f⟩ from rfl]
    dsimp only at hwin ⊢
    rw [hwin]
    dsimp only
    simp only [Nat.cast_zero, mul_zero, zero_mul, zero_add, add_zero, Nat.zero_add]
    apply congrArg
    rw [Raster.mk.injEq]
    refine ⟨rfl, rfl, rfl, ?_⟩
    refine Eq.trans (List.map_congr_left ?_) (List.map_id _)
    intro band hband
    obtain ⟨hlen, hrows⟩ := hwf band hband
    refine Eq.trans (List.map_congr_left ?_)
      (range_map_getD_of_length band [] H hlen)
    intro i hiR
    have hiH : i < H := List.mem_range.mp hiR
    have hrow : (band.getD i []).length = W := by
      have hib : i < band.length := by rw [hlen]; exact hiH
      rw [List.getD_eq_getElem band [] hib]
      exact hrows _ (List.getElem_mem hib)
    refine Eq.trans (List.map_congr_left ?_)
      (range_map_getD_of_length (band.getD i []) 0 W hrow)
    intro j hjR
    exact if_pos
      (insideRect_center a c e f W H ha he i j hiH (List.mem_range.mp hjR))
  · intro r g out h
    unfold clip_raster_with_polygon at h
    cases hw : geoWindow r.transform r.width r.height g with
    | none =>
        rw [hw] at h
        exact Except.noConfusion h
    | some w =>
        obtain ⟨c0, r0, w1, h1⟩ := w
        rw [hw] at h
        dsimp only at h
        rw [Except.ok.injEq] at h
        subst h
        refine ⟨rfl, rfl, rfl, rfl, c0, r0, ?_, ?_⟩
        · rfl
        · dsimp only [Affine.fwd]
          rw [Prod.ext_iff]
          constructor <;> dsimp only <;> ring

/-- C7 witness: the full-extent clip of a concrete 2×2 north-up raster
returns the raster unchanged. -/
theorem clip_full_extent_and_window_transform_witness :
    clip_raster_with_polygon ⟨2, 2, ⟨1, 0, 0, 0, -1, 2⟩, [[[1, 2], [3, 4]]]⟩
      (fullExtent ⟨2, 2, ⟨1, 0, 0, 0, -1, 2⟩, [[[1, 2], [3, 4]]]⟩) =
      .ok ⟨2, 2, ⟨1, 0, 0, 0, -1, 2⟩, [[[1, 2], [3, 4]]]⟩ :=
  clip_full_extent_and_window_transform.1
    ⟨2, 2, ⟨1, 0, 0, 0, -1, 2⟩, [[[1, 2], [3, 4]]]⟩
    (by
      intro band hband
      simp only [List.mem_singleton] at hband
      subst hband
      refine ⟨rfl, ?_⟩
      intro row hrow
      simp only [List.mem_cons, List.mem_singleton, List.not_mem_nil] at hrow
      rcases hrow with h | h | h
      · subst h; rfl
      · subst h; rfl
      · exact absurd h (by simp))
    (by norm_num) (by norm_num) rfl rfl (by norm_num) (by norm_num)

end GeoYolo
